import Mathlib

/-!
Verification of the resilient object access and cache layer of
`dig-open-data` (shallow embedding of `src/dig_open_data/`).

The embedding models:
* `streams.py`: `open_text_stream` (gzip auto-detection), `ManagedTextIO`
  reads, and `RetryingTextIO` (resumable retry wrapper);
* `api.py`: `resolve_uri`, `_cache_entry_valid`, `_open_text_cached`;
* `cache.py`: `CacheStore.put` / `_evict_if_needed` / `_delete_entry`;
* `backends.py`: `S3HttpBackend.open_binary` / `exists` / `head_metadata`.

Text streams are modelled at the level of decoded characters: a stream
delivers a list of characters and then either ends cleanly or raises an
error, which is exactly the observable behaviour the retry wrapper in
`streams.py` reacts to.
-/

set_option maxRecDepth 2000

namespace DigOpenData

/-- Python exception classes observable by this layer.
`badGzip` = `gzip.BadGzipFile`, `eofErr` = `EOFError`, `osErr` = `OSError`,
`notFound` = `FileNotFoundError` (a subclass of `OSError`), `resync` is the
`EOFError("Stream ended before retry offset could be reached")` raised by
`RetryingTextIO._skip_chars`, `decodeErr` = `UnicodeDecodeError`.
`fuelOut` is an artifact of the bounded unrolling of `while` loops and is
never produced by any run that the theorems talk about. -/
inductive Err where
  | badGzip
  | eofErr
  | osErr
  | notFound
  | resync
  | decodeErr
  | fuelOut
deriving DecidableEq, Repr

/-- Membership in `streams._RETRY_ERRORS = (gzip.BadGzipFile, EOFError, OSError)`.
`FileNotFoundError` is an `OSError` and the resync `EOFError` is an `EOFError`,
so both count as retryable exception classes. -/
def retryable : Err → Bool
  | .badGzip => true
  | .eofErr => true
  | .osErr => true
  | .notFound => true
  | .resync => true
  | .decodeErr => false
  | .fuelOut => false

/-- A decoded text stream (the observable behaviour of a `ManagedTextIO`):
it delivers `content` and afterwards either reports end-of-stream (`err = none`,
reads return `""`) or raises `err = some e`. -/
structure MStream where
  content : List Char
  err : Option Err
deriving DecidableEq, Repr

/-- Split a list of characters at the first newline, keeping the newline with
the first component; models what one `readline()` call returns on a stream
whose remaining decoded content is `l`. -/
def splitLine : List Char → List Char × List Char
  | [] => ([], [])
  | c :: cs =>
    if c = '\n' then ([c], cs)
    else
      let p := splitLine cs
      (c :: p.1, p.2)

theorem splitLine_append (l : List Char) : (splitLine l).1 ++ (splitLine l).2 = l := by
  induction l with
  | nil => rfl
  | cons c cs ih =>
    by_cases h : c = '\n' <;> simp [splitLine, h, ih]

theorem splitLine_fst_ne_nil (l : List Char) (h : l ≠ []) : (splitLine l).1 ≠ [] := by
  cases l with
  | nil => exact absurd rfl h
  | cons c cs => by_cases hc : c = '\n' <;> simp [splitLine, hc]

theorem splitLine_length (l : List Char) :
    (splitLine l).1.length + (splitLine l).2.length = l.length := by
  conv_rhs => rw [← splitLine_append l]
  simp

/-- `TextIO.read(n)` on the model stream: deliver up to `n` of the remaining
characters; once the content is exhausted, raise the stream error if there is
one, otherwise return the empty string. -/
def mread (n : Nat) (s : MStream) : Except Err (List Char) × MStream :=
  match s.content with
  | [] =>
    match s.err with
    | some e => (.error e, s)
    | none => (.ok [], s)
  | c :: cs => (.ok ((c :: cs).take n), ⟨(c :: cs).drop n, s.err⟩)

/-- `TextIO.readline()` on the model stream. -/
def mreadline (s : MStream) : Except Err (List Char) × MStream :=
  match s.content with
  | [] =>
    match s.err with
    | some e => (.error e, s)
    | none => (.ok [], s)
  | c :: cs =>
    let p := splitLine (c :: cs)
    (.ok p.1, ⟨p.2, s.err⟩)

/-- State of a `RetryingTextIO` object (`streams.py`, lines 67-139):
`opens` counts invocations of the stream factory (`self._opener`), `closes`
counts streams closed by `_retry`, `remaining` is `self._remaining`,
`charsRead` is `self._chars_read`, `cur` is `self._stream`. -/
structure RetrySt where
  opens : Nat
  closes : Nat
  remaining : Nat
  charsRead : Nat
  cur : MStream
deriving DecidableEq, Repr

/-- A stream factory: the result of the `k`-th invocation of `self._opener`
(an `Except.error` models the factory itself raising). -/
def Opener : Type := Nat → Except Err MStream

/-- `RetryingTextIO._skip_chars(count)`: repeatedly `read(min(8192, remaining))`
from the current stream until `count` characters were discarded; if a read
returns the empty string first, raise the hard resynchronization `EOFError`.
Returns the final stream alongside the outcome. -/
def skipChars (count : Nat) (s : MStream) : Option Err × MStream :=
  if count = 0 then (none, s)
  else
    match mread (min 8192 count) s with
    | (.error e, s') => (some e, s')
    | (.ok chunk, s') =>
      if chunk.length = 0 then (some .resync, s')
      else skipChars (count - chunk.length) s'
termination_by count
decreasing_by
  omega

/-- `RetryingTextIO.readline()` with no size argument (the form used by
`__iter__`): try to read a line; on a retryable error, if budget remains,
decrement it, close the broken stream, invoke the factory again, skip
`charsRead` characters from the fresh stream and retry; otherwise re-raise. -/
def readlineR (opener : Opener) (st : RetrySt) : Except Err (List Char) × RetrySt :=
  match mreadline st.cur with
  | (.ok line, cur') =>
    (.ok line, { st with cur := cur', charsRead := st.charsRead + line.length })
  | (.error e, cur') =>
    if retryable e then
      match hr : st.remaining with
      | 0 => (.error e, { st with cur := cur' })
      | r + 1 =>
        match opener st.opens with
        | .error e2 =>
          (.error e2,
            { st with opens := st.opens + 1, closes := st.closes + 1,
                      remaining := r, cur := cur' })
        | .ok ns =>
          match skipChars st.charsRead ns with
          | (some e2, ns') =>
            (.error e2,
              { st with opens := st.opens + 1, closes := st.closes + 1,
                        remaining := r, cur := ns' })
          | (none, ns') =>
            readlineR opener
              { st with opens := st.opens + 1, closes := st.closes + 1,
                        remaining := r, cur := ns' }
    else (.error e, { st with cur := cur' })
termination_by st.remaining
decreasing_by
  simp only [hr]
  omega

/-- Construction of `RetryingTextIO(opener, retries)`: the factory is invoked
eagerly in `__init__`, before any read and regardless of the budget; a factory
failure therefore propagates out of the constructor. -/
def retryingInit (opener : Opener) (retries : Nat) : Except Err RetrySt :=
  match opener 0 with
  | .error e => .error e
  | .ok s => .ok ⟨1, 0, retries, 0, s⟩

/-- Iterating a `RetryingTextIO` to exhaustion (`__iter__`: `readline` until it
returns the empty string), returning the concatenation of all delivered lines.
`fuel` bounds the unrolling of the `while`; every theorem below supplies enough
fuel for the run to finish. -/
def iterAll (opener : Opener) : Nat → RetrySt → Except Err (List Char) × RetrySt
  | 0, st => (.error .fuelOut, st)
  | fuel + 1, st =>
    match readlineR opener st with
    | (.error e, st') => (.error e, st')
    | (.ok line, st') =>
      if line.isEmpty then (.ok [], st')
      else
        match iterAll opener fuel st' with
        | (.ok rest, st'') => (.ok (line ++ rest), st'')
        | (.error e, st'') => (.error e, st'')

/-- Iterating a plain `ManagedTextIO` (no retry wrapper, the `retries <= 0`
path of `api.open_text`) to exhaustion. -/
def iterStream : Nat → MStream → Except Err (List Char)
  | 0, _ => .error .fuelOut
  | fuel + 1, s =>
    match mreadline s with
    | (.error e, _) => .error e
    | (.ok line, s') =>
      if line.isEmpty then .ok []
      else
        match iterStream fuel s' with
        | .ok rest => .ok (line ++ rest)
        | .error e => .error e

/-- Build the retry wrapper and read everything through it: the composition
`open_text_stream_with_retries(opener, retries)` followed by full iteration. -/
def openAndReadAll (opener : Opener) (retries fuel : Nat) :
    Except Err (List Char) × Option RetrySt :=
  match retryingInit opener retries with
  | .error e => (.error e, none)
  | .ok st =>
    match iterAll opener fuel st with
    | (r, st') => (r, some st')

theorem isEmpty_false_of_ne_nil {α : Type} {l : List α} (h : l ≠ []) :
    l.isEmpty = false := by
  cases l with
  | nil => exact absurd rfl h
  | cons a as => rfl

theorem skipChars_ok (count : Nat) :
    ∀ (u : List Char) (e0 : Option Err), count ≤ u.length →
      skipChars count ⟨u, e0⟩ = (none, ⟨u.drop count, e0⟩) := by
  induction count using Nat.strong_induction_on with
  | _ count ih =>
    intro u e0 hle
    rw [skipChars]
    by_cases h0 : count = 0
    · subst h0; simp
    · cases u with
      | nil =>
        exfalso
        simp only [List.length_nil] at hle
        omega
      | cons a as =>
        simp only [h0, if_false, mread]
        rcases Nat.le_total 8192 count with hc | hc
        · rw [Nat.min_eq_left hc]
          rw [List.length_take, Nat.min_eq_left (le_trans hc hle)]
          rw [if_neg (by omega)]
          rw [ih _ (by omega) _ e0 (by rw [List.length_drop]; omega)]
          rw [List.drop_drop]
          have harith : 8192 + (count - 8192) = count := by omega
          rw [harith]
        · rw [Nat.min_eq_right hc]
          rw [List.length_take, Nat.min_eq_left hle]
          rw [if_neg (by omega)]
          rw [ih _ (by omega) _ e0 (by rw [List.length_drop]; omega)]
          rw [List.drop_drop]
          have harith : count + (count - count) = count := by omega
          rw [harith]

theorem skipChars_short (count : Nat) :
    ∀ (u : List Char), u.length < count →
      skipChars count ⟨u, none⟩ = (some .resync, ⟨[], none⟩) := by
  induction count using Nat.strong_induction_on with
  | _ count ih =>
    intro u hlt
    have h0 : count ≠ 0 := by omega
    rw [skipChars]
    cases u with
    | nil =>
      simp [h0, mread]
    | cons a as =>
      have hm1 : 1 ≤ min 8192 count := by
        refine le_min (by omega) (by omega)
      simp only [h0, if_false, mread]
      have hlen : ((a :: as).take (min 8192 count)).length
          = min (min 8192 count) (a :: as).length := List.length_take _ _
      have hchunk1 : 1 ≤ min (min 8192 count) (a :: as).length := by
        refine le_min hm1 (by simp)
      have hchunklen : min (min 8192 count) (a :: as).length ≤ (a :: as).length :=
        Nat.min_le_right _ _
      have hdroplen : ((a :: as).drop (min 8192 count)).length
          = (a :: as).length - min 8192 count := List.length_drop _ _
      have hminmin : min 8192 count ≤ 8192 := Nat.min_le_left _ _
      rw [hlen, if_neg (by omega)]
      rw [ih (count - min (min 8192 count) (a :: as).length) (by omega)
        ((a :: as).drop (min 8192 count)) ?hlt2]
      case hlt2 =>
        rw [hdroplen]
        rcases Nat.le_total (min 8192 count) (a :: as).length with hc | hc
        · rw [Nat.min_eq_left hc] at *
          omega
        · rw [Nat.min_eq_right hc] at *
          omega

theorem iterStream_noFail (fuel : Nat) :
    ∀ (d : List Char), d.length < fuel → iterStream fuel ⟨d, none⟩ = .ok d := by
  induction fuel with
  | zero => intro d h; omega
  | succ n ih =>
    intro d h
    cases d with
    | nil => simp [iterStream, mreadline]
    | cons c cs =>
      have hne := splitLine_fst_ne_nil (c :: cs) (by simp)
      have hlen := splitLine_length (c :: cs)
      have h1 : 1 ≤ (splitLine (c :: cs)).1.length := List.length_pos.mpr hne
      simp only [List.length_cons] at h hlen
      simp only [iterStream, mreadline]
      rw [isEmpty_false_of_ne_nil hne]
      simp only [Bool.false_eq_true, if_false]
      rw [ih (splitLine (c :: cs)).2 (by omega)]
      show Except.ok ((splitLine (c :: cs)).1 ++ (splitLine (c :: cs)).2)
        = Except.ok (c :: cs)
      rw [splitLine_append]

theorem iterAll_noFail (fuel : Nat) :
    ∀ (d : List Char) (op : Opener) (o c r k : Nat), d.length < fuel →
      iterAll op fuel ⟨o, c, r, k, ⟨d, none⟩⟩ =
        (.ok d, ⟨o, c, r, k + d.length, ⟨[], none⟩⟩) := by
  induction fuel with
  | zero => intro d _ _ _ _ _ h; omega
  | succ n ih =>
    intro d op o c r k h
    cases d with
    | nil => simp [iterAll, readlineR, mreadline]
    | cons x xs =>
      have hne := splitLine_fst_ne_nil (x :: xs) (by simp)
      have hlen := splitLine_length (x :: xs)
      have h1 : 1 ≤ (splitLine (x :: xs)).1.length := List.length_pos.mpr hne
      simp only [List.length_cons] at h hlen
      rw [iterAll, readlineR]
      simp only [mreadline]
      rw [isEmpty_false_of_ne_nil hne]
      simp only [Bool.false_eq_true, if_false]
      rw [ih (splitLine (x :: xs)).2 op o c r (k + (splitLine (x :: xs)).1.length)
        (by omega)]
      show (Except.ok ((splitLine (x :: xs)).1 ++ (splitLine (x :: xs)).2),
        RetrySt.mk o c r (k + (splitLine (x :: xs)).1.length + (splitLine (x :: xs)).2.length)
          ⟨[], none⟩)
        = (Except.ok (x :: xs), ⟨o, c, r, k + (x :: xs).length, ⟨[], none⟩⟩)
      rw [splitLine_append]
      simp only [Prod.mk.injEq, RetrySt.mk.injEq, List.length_cons]
      exact ⟨trivial, trivial, trivial, trivial, by omega, trivial⟩

theorem mreadline_noFail (d : List Char) :
    mreadline ⟨d, none⟩ = (.ok (splitLine d).1, ⟨(splitLine d).2, none⟩) := by
  cases d <;> simp [mreadline, splitLine]

theorem readlineR_noFail (op : Opener) (o c r k : Nat) (d : List Char) :
    readlineR op ⟨o, c, r, k, ⟨d, none⟩⟩ =
      (.ok (splitLine d).1,
        ⟨o, c, r, k + (splitLine d).1.length, ⟨(splitLine d).2, none⟩⟩) := by
  rw [readlineR, mreadline_noFail]

theorem mreadline_cons (x : Char) (xs : List Char) (e0 : Option Err) :
    mreadline ⟨x :: xs, e0⟩ =
      (.ok (splitLine (x :: xs)).1, ⟨(splitLine (x :: xs)).2, e0⟩) := by
  simp [mreadline]

theorem readlineR_cons (op : Opener) (o c r k : Nat) (x : Char) (xs : List Char)
    (e0 : Option Err) :
    readlineR op ⟨o, c, r, k, ⟨x :: xs, e0⟩⟩ =
      (.ok (splitLine (x :: xs)).1,
        ⟨o, c, r, k + (splitLine (x :: xs)).1.length, ⟨(splitLine (x :: xs)).2, e0⟩⟩) := by
  rw [readlineR, mreadline_cons]

theorem readlineR_exhaust (b : Nat) :
    ∀ (op : Opener) (t : List Char) (e : Err) (o c : Nat),
      retryable e = true → (∀ j, op j = .ok ⟨t, some e⟩) →
      readlineR op ⟨o, c, b, t.length, ⟨[], some e⟩⟩ =
        (.error e, ⟨o + b, c + b, 0, t.length, ⟨[], some e⟩⟩) := by
  induction b with
  | zero =>
    intro op t e o c hre _
    rw [readlineR]
    simp [mreadline, hre]
  | succ n ih =>
    intro op t e o c hre hop
    rw [readlineR]
    simp only [mreadline, hre, if_true, hop o]
    rw [skipChars_ok t.length t (some e) (le_refl _), List.drop_length]
    dsimp only
    rw [ih op t e (o + 1) (c + 1) hre hop]
    have h1 : o + 1 + n = o + (n + 1) := by omega
    have h2 : c + 1 + n = c + (n + 1) := by omega
    rw [h1, h2]

theorem iterAll_allFail (fuel : Nat) :
    ∀ (t tFull : List Char) (k b : Nat) (op : Opener) (e : Err),
      retryable e = true → (∀ j, op j = .ok ⟨tFull, some e⟩) →
      k + t.length = tFull.length →
      t.length + 2 ≤ fuel →
      iterAll op fuel ⟨1, 0, b, k, ⟨t, some e⟩⟩ =
        (.error e, ⟨1 + b, b, 0, tFull.length, ⟨[], some e⟩⟩) := by
  induction fuel with
  | zero => intro t tFull k b op e _ _ _ h; omega
  | succ n ih =>
    intro t tFull k b op e hre hop hk hfuel
    cases t with
    | nil =>
      have hk0 : k = tFull.length := by
        simpa using hk
      subst hk0
      rw [iterAll, readlineR_exhaust b op tFull e 1 0 hre hop]
      simp
    | cons x xs =>
      have hne := splitLine_fst_ne_nil (x :: xs) (by simp)
      have hlen := splitLine_length (x :: xs)
      have h1 : 1 ≤ (splitLine (x :: xs)).1.length := List.length_pos.mpr hne
      simp only [List.length_cons] at hk hfuel hlen
      rw [iterAll, readlineR_cons]
      dsimp only
      rw [isEmpty_false_of_ne_nil hne]
      simp only [Bool.false_eq_true, if_false]
      rw [ih (splitLine (x :: xs)).2 tFull (k + (splitLine (x :: xs)).1.length) b op e
        hre hop (by omega) (by omega)]

theorem iterAll_resume (fuel : Nat) :
    ∀ (t u : List Char) (k b : Nat) (op : Opener) (e : Err),
      retryable e = true → op 1 = .ok ⟨u, none⟩ →
      k + t.length ≤ u.length →
      t.length + (u.length - (k + t.length)) + 2 ≤ fuel →
      iterAll op fuel ⟨1, 0, b + 1, k, ⟨t, some e⟩⟩ =
        (.ok (t ++ u.drop (k + t.length)), ⟨2, 1, b, u.length, ⟨[], none⟩⟩) := by
  induction fuel with
  | zero => intro t u k b op e _ _ _ h; omega
  | succ n ih =>
    intro t u k b op e hre hop hku hfuel
    cases t with
    | nil =>
      simp only [List.length_nil, Nat.add_zero] at hku hfuel ⊢
      rw [iterAll, readlineR]
      simp only [mreadline, hre, if_true, hop]
      rw [skipChars_ok k u none hku]
      dsimp only
      rw [readlineR_noFail]
      dsimp only
      cases hd : u.drop k with
      | nil =>
        have hkl : k = u.length := by
          have := List.length_drop k u
          rw [hd] at this
          simp at this
          omega
        simp only [splitLine, List.isEmpty_nil, if_true, List.length_nil, Nat.add_zero]
        rw [hkl]
        simp
      | cons y ys =>
        have hne := splitLine_fst_ne_nil (y :: ys) (by simp)
        have hlen := splitLine_length (y :: ys)
        have h1 : 1 ≤ (splitLine (y :: ys)).1.length := List.length_pos.mpr hne
        have hdl : (u.drop k).length = u.length - k := List.length_drop k u
        rw [hd] at hdl
        rw [isEmpty_false_of_ne_nil hne]
        simp only [Bool.false_eq_true, if_false]
        rw [iterAll_noFail n (splitLine (y :: ys)).2 op 2 1 b
          (k + (splitLine (y :: ys)).1.length) (by omega)]
        dsimp only
        rw [splitLine_append]
        simp only [Prod.mk.injEq, RetrySt.mk.injEq, Except.ok.injEq]
        exact ⟨rfl, trivial, trivial, trivial, by omega, trivial⟩
    | cons x xs =>
      have hne := splitLine_fst_ne_nil (x :: xs) (by simp)
      have hlen := splitLine_length (x :: xs)
      have h1 : 1 ≤ (splitLine (x :: xs)).1.length := List.length_pos.mpr hne
      simp only [List.length_cons] at hku hfuel hlen
      rw [iterAll, readlineR_cons]
      dsimp only
      rw [isEmpty_false_of_ne_nil hne]
      simp only [Bool.false_eq_true, if_false]
      rw [ih (splitLine (x :: xs)).2 u (k + (splitLine (x :: xs)).1.length) b op e
        hre hop (by omega) (by omega)]
      have hsame : k + (splitLine (x :: xs)).1.length + (splitLine (x :: xs)).2.length
          = k + (xs.length + 1) := by omega
      rw [hsame]
      show (Except.ok ((splitLine (x :: xs)).1 ++
          ((splitLine (x :: xs)).2 ++ u.drop (k + (xs.length + 1)))),
        (⟨2, 1, b, u.length, ⟨[], none⟩⟩ : RetrySt))
        = (Except.ok ((x :: xs) ++ u.drop (k + (xs.length + 1))),
          ⟨2, 1, b, u.length, ⟨[], none⟩⟩)
      rw [← List.append_assoc, splitLine_append]

theorem iterAll_resync (fuel : Nat) :
    ∀ (t u : List Char) (k b : Nat) (op : Opener) (e : Err),
      retryable e = true → op 1 = .ok ⟨u, none⟩ →
      u.length < k + t.length →
      t.length + 2 ≤ fuel →
      iterAll op fuel ⟨1, 0, b + 1, k, ⟨t, some e⟩⟩ =
        (.error .resync, ⟨2, 1, b, k + t.length, ⟨[], none⟩⟩) := by
  induction fuel with
  | zero => intro t u k b op e _ _ _ h; omega
  | succ n ih =>
    intro t u k b op e hre hop hku hfuel
    cases t with
    | nil =>
      simp only [List.length_nil, Nat.add_zero] at hku ⊢
      rw [iterAll, readlineR]
      simp only [mreadline, hre, if_true, hop]
      rw [skipChars_short k u hku]
    | cons x xs =>
      have hne := splitLine_fst_ne_nil (x :: xs) (by simp)
      have hlen := splitLine_length (x :: xs)
      have h1 : 1 ≤ (splitLine (x :: xs)).1.length := List.length_pos.mpr hne
      simp only [List.length_cons] at hku hfuel hlen ⊢
      rw [iterAll, readlineR_cons]
      dsimp only
      rw [isEmpty_false_of_ne_nil hne]
      simp only [Bool.false_eq_true, if_false]
      rw [ih (splitLine (x :: xs)).2 u (k + (splitLine (x :: xs)).1.length) b op e
        hre hop (by omega) (by omega)]
      have hsame : k + (splitLine (x :: xs)).1.length + (splitLine (x :: xs)).2.length
          = k + (xs.length + 1) := by omega
      rw [hsame]

/-! ### `open_text_stream`: gzip auto-detection and decoding (`streams.py` 49-64) -/

/-- The two-byte gzip magic pair `b"\x1f\x8b"` (`streams.GZIP_MAGIC`). -/
def gzipMagic : List Nat := [0x1f, 0x8b]

/-- The gzip member header check performed by `gzip.GzipFile` before any
payload byte is produced: at least 10 header bytes must be present
(`EOFError` otherwise), the first two must equal the magic pair
(`BadGzipFile` otherwise), and the third byte — the compression method — must
be 8 = deflate (`BadGzipFile` otherwise). -/
def gzipHeaderErr (bytes : List Nat) : Option Err :=
  if bytes.length < 10 then some .eofErr
  else if bytes.take 2 ≠ gzipMagic then some .badGzip
  else if bytes.get? 2 ≠ some 8 then some .badGzip
  else none

/-- Reading everything through a `gzip.GzipFile`: the header is validated
first; the DEFLATE payload is then inflated. Inflation itself is kept
abstract as the parameter `inflate` (applied to the whole member). -/
def gzipRead (inflate : List Nat → Except Err (List Nat)) (bytes : List Nat) :
    Except Err (List Nat) :=
  match gzipHeaderErr bytes with
  | some e => .error e
  | none => inflate bytes

/-- `streams.open_text_stream(binary_stream, encoding)`: buffer the raw byte
stream, peek at its first two bytes without consuming them, and insert a
streaming decompressor exactly when they equal the gzip magic pair; otherwise
decode the bytes directly. `decode` is the text decoder for the requested
encoding; the result is the character stream observable through the returned
`ManagedTextIO`. -/
def open_text_stream (inflate : List Nat → Except Err (List Nat))
    (decode : List Nat → List Char) (bytes : List Nat) : MStream :=
  if bytes.take 2 = gzipMagic then
    match gzipRead inflate bytes with
    | .ok payload => ⟨decode payload, none⟩
    | .error e => ⟨[], some e⟩
  else ⟨decode bytes, none⟩

/-- A crafted non-gzip input whose first two bytes collide with the gzip
magic pair: the third byte (compression method 0) is not deflate, so the
decoder must fail rather than silently produce content. -/
def craftedCollision : List Nat := [0x1f, 0x8b, 0, 0, 0, 0, 0, 0, 0, 0]

/-- The zero-argument `opener` closure built inside `api.open_text` for a
local URI: `backend.open_binary(resolved)` — raising `FileNotFoundError`
when no file exists at the resolved path — followed by `open_text_stream`.
`file` is the raw content of the file, or `none` when it is absent. -/
def localOpener (inflate : List Nat → Except Err (List Nat))
    (decode : List Nat → List Char) (file : Option (List Nat)) : Opener :=
  fun _ =>
    match file with
    | none => .error .notFound
    | some bytes => .ok (open_text_stream inflate decode bytes)

/-- `api.open_text(uri, encoding, retries)` for a local file, abstracted by
the outcome of iterating the returned handle to exhaustion: the
`retries <= 0` branch returns `opener()` directly, the `retries > 0` branch
wraps the opener in a `RetryingTextIO` (which invokes it eagerly). -/
def open_text_readAll (inflate : List Nat → Except Err (List Nat))
    (decode : List Nat → List Char) (file : Option (List Nat))
    (retries fuel : Nat) : Except Err (List Char) :=
  if retries = 0 then
    match localOpener inflate decode file 0 with
    | .error e => .error e
    | .ok s => iterStream fuel s
  else (openAndReadAll (localOpener inflate decode file) retries fuel).1

/-! ### `resolve_uri` (`api.py` 21-28) over a model of `urllib.parse.urlparse` -/

/-- Characters admissible in a URI scheme (`urllib.parse.scheme_chars`):
ASCII letters and digits plus `+`, `-` and `.`. -/
def isSchemeChar (c : Char) : Bool :=
  c.isAlpha || c.isDigit || c = '+' || c = '-' || c = '.'

/-- The scheme-splitting step of `urllib.parse.urlsplit`: when the part
before the first `:` is nonempty, starts with an ASCII letter and consists
only of scheme characters, it is the (lower-cased) scheme and the remainder
follows the colon; otherwise the URI has no scheme. -/
def splitSchemeL (l : List Char) : List Char × List Char :=
  let pre := l.takeWhile (fun c => c != ':')
  if pre.length = l.length then ([], l)
  else if pre.length = 0 then ([], l)
  else if pre.all isSchemeChar &&
      (match l with
       | c :: _ => c.isAlpha
       | [] => false) then
    (pre.map Char.toLower, l.drop (pre.length + 1))
  else ([], l)

/-- A character that terminates the netloc (`_splitnetloc` stops at the first
of `/`, `?`, `#`). -/
def netlocStop (c : Char) : Bool := c = '/' || c = '?' || c = '#'

/-- A character that terminates the path (the query and fragment are split
off at the first `?` / `#`). -/
def pathStop (c : Char) : Bool := c = '?' || c = '#'

/-- The `(scheme, netloc, path)` components of `urllib.parse.urlparse` as
used by `api.resolve_uri`. -/
def splitUriL (l : List Char) : List Char × List Char × List Char :=
  let sr := splitSchemeL l
  match sr.2 with
  | '/' :: '/' :: r =>
    (sr.1, r.takeWhile (fun c => !netlocStop c),
      (r.dropWhile (fun c => !netlocStop c)).takeWhile (fun c => !pathStop c))
  | _ => (sr.1, [], sr.2.takeWhile (fun c => !pathStop c))

/-- `api.resolve_uri`: a `registry` URI rewrites to `s3://netloc + path`, a
`file` URI resolves to its parsed path, everything else is returned
unchanged. -/
def resolve_uri (u : String) : String :=
  let p := splitUriL u.toList
  if p.1 = "registry".toList then
    String.mk ("s3://".toList ++ p.2.1 ++ p.2.2)
  else if p.1 = "file".toList then String.mk p.2.2
  else u

/-! ### Cache store (`cache.py`): index, `put`, `_evict_if_needed` -/

/-- A persisted cache index entry (the fields relevant to eviction). -/
structure CEntry where
  size : Nat
  lastAccess : Nat
deriving DecidableEq, Repr

/-- The cache index as rebuilt by `CacheStore._load_index`: an
insertion-ordered association list (later `index.jsonl` records supersede
earlier ones; Python dicts preserve insertion order). -/
abbrev CacheIndex := List (String × CEntry)

/-- `index[key] = entry` on a Python dict: overwrite in place when the key
exists, append otherwise. -/
def updateIndex : CacheIndex → String → CEntry → CacheIndex
  | [], k, e => [(k, e)]
  | (k0, e0) :: rest, k, e =>
    if k0 = k then (k, e) :: rest else (k0, e0) :: updateIndex rest k e

/-- `del index[key]` as performed by `_delete_entry` on the reloaded index. -/
def removeKey : CacheIndex → String → CacheIndex
  | [], _ => []
  | (k0, e0) :: rest, k =>
    if k0 = k then rest else (k0, e0) :: removeKey rest k

/-- `index.get(key)`. -/
def lookupKey : CacheIndex → String → Option CEntry
  | [], _ => none
  | (k0, e0) :: rest, k => if k0 = k then some e0 else lookupKey rest k

/-- `sum(int(v.get("size", 0)) for v in index.values())`. -/
def sumSizes (idx : CacheIndex) : Nat := (idx.map (fun kv => kv.2.size)).sum

/-- Stable insertion by ascending `last_access` (an earlier element goes in
front of later elements with an equal key, as Python sorted is stable). -/
def insertByLA (p : String × CEntry) : CacheIndex → CacheIndex
  | [] => [p]
  | q :: rest =>
    if p.2.lastAccess ≤ q.2.lastAccess then p :: q :: rest
    else q :: insertByLA p rest

/-- `sorted(index.items(), key=lambda kv: int(kv[1].get("last_access", 0)))`. -/
def sortByLA : CacheIndex → CacheIndex
  | [] => []
  | p :: rest => insertByLA p (sortByLA rest)

/-- The `for key, entry in entries:` loop of `CacheStore._evict_if_needed`.
`_delete_entry` reloads the index from disk, removes the key there and
rewrites it — it never mutates the in-memory `index` dict that the loop
recomputes `total` from, so `mem` stays fixed across iterations exactly as
in the source. -/
def evictLoop (maxBytes : Nat) (mem : CacheIndex) :
    List (String × CEntry) → CacheIndex → CacheIndex
  | [], disk => disk
  | (k, _) :: rest, disk =>
    let dsk := removeKey disk k
    if sumSizes mem ≤ maxBytes then dsk
    else evictLoop maxBytes mem rest dsk

/-- `CacheStore._evict_if_needed(index)`: `disk` is the persisted index the
deletions act on, `mem` the in-memory dict the totals are computed from. -/
def evictIfNeeded (maxBytes : Nat) (mem disk : CacheIndex) : CacheIndex :=
  if sumSizes mem ≤ maxBytes then disk
  else evictLoop maxBytes mem (sortByLA mem) disk

/-- `CacheStore.put(key, source_path, size)` restricted to its effect on the
persisted index: overwrite the entry with current timestamps (`now` is
`int(time.time())`), write the index, then run eviction on the updated
in-memory dict. -/
def cachePut (maxBytes : Nat) (disk : CacheIndex) (key : String)
    (size now : Nat) : CacheIndex :=
  let idx := updateIndex disk key ⟨size, now⟩
  evictIfNeeded maxBytes idx idx

/-! ### Cache revalidation (`api.py`: `_cache_entry_valid`, `_open_text_cached`) -/

/-- The subset of `RemoteObjectMetadata` fields compared during
revalidation, as stored in a cache entry or returned by `head_metadata`.
`none` models an absent dict key. -/
structure ObjMeta where
  etag : Option String
  lastModified : Option String
  contentLength : Option Nat
deriving DecidableEq, Repr

/-- Python truthiness of `entry.get("etag")`-style string values: absent
(`None`) and the empty string are falsy. -/
def truthyS : Option String → Bool
  | none => false
  | some s => s != ""

/-- Python truthiness of `entry.get("content_length")`-style integer values:
absent (`None`) and `0` are falsy. -/
def truthyN : Option Nat → Bool
  | none => false
  | some n => n != 0

/-- `if not meta:` — the metadata dict is falsy iff it holds no keys. -/
def metaIsEmpty (m : ObjMeta) : Bool :=
  m.etag.isNone && m.lastModified.isNone && m.contentLength.isNone

/-- `api._cache_entry_valid(backend, uri, entry)` with the already fetched
remote metadata `meta` (the empty `ObjMeta` when the backend cannot supply
metadata or `head_metadata` raised — the fail-open case). Each comparison
fires only when the corresponding value is truthy on both sides. -/
def cache_entry_valid (meta entry : ObjMeta) : Bool :=
  if metaIsEmpty meta then true
  else if truthyS entry.etag && truthyS meta.etag &&
      (entry.etag != meta.etag) then false
  else if truthyS entry.lastModified && truthyS meta.lastModified &&
      (entry.lastModified != meta.lastModified) then false
  else if truthyN entry.contentLength && truthyN meta.contentLength &&
      (entry.contentLength != meta.contentLength) then false
  else true

/-- How `api._open_text_cached` proceeds after the cache lookup. -/
inductive ServeAction where
  | serveCached
  | deleteThenRedownload
  | redownload
deriving DecidableEq, Repr

/-- The serving decision of `api._open_text_cached`: with a cached entry and
no forced refresh, a valid entry is served directly and an invalid one is
deleted and re-downloaded; otherwise the object is downloaded and `put`. -/
def open_text_cached_action (cached : Option ObjMeta) (refresh : Bool)
    (meta : ObjMeta) : ServeAction :=
  match cached with
  | some entry =>
    if !refresh then
      if cache_entry_valid meta entry then .serveCached
      else .deleteThenRedownload
    else .redownload
  | none => .redownload

/-! ### Remote backend (`backends.py`: `S3HttpBackend`) -/

/-- The outcome of one `urllib.request.urlopen` call: a response with a
status, an `urllib.error.HTTPError` with a code and reason, or an
`urllib.error.URLError` (connection-level failure). -/
inductive NetResp where
  | ok (status : Nat)
  | httpErr (code : Nat) (reason : String)
  | connErr (reason : String)
deriving DecidableEq, Repr

/-- The network as observed by one backend operation: the outcome of the
`k`-th request the operation issues to a given URL. -/
def Net : Type := String → Nat → NetResp

/-- The exception recorded in `last_error`. -/
inductive LastE where
  | http (code : Nat) (reason : String)
  | conn (reason : String)
deriving DecidableEq, Repr

/-- Failures surfaced by `S3HttpBackend.open_binary` / `exists`:
`FileNotFoundError` on a 404, or the final `RuntimeError` — which carries
the last observed status and reason when the last error was an `HTTPError`
and is generic otherwise. -/
inductive S3Err where
  | notFound
  | failedHttp (code : Nat) (reason : String)
  | failedConn
deriving DecidableEq, Repr

/-- `exc.code in {429, 500, 502, 503, 504}`. -/
def retryableCodes : List Nat := [429, 500, 502, 503, 504]

/-- The final `raise` after both loops: a `RuntimeError` with status and
reason when `last_error` is an `HTTPError`, a generic `RuntimeError`
otherwise. -/
def finalErr (le : Option LastE) : S3Err :=
  match le with
  | some (.http c r) => .failedHttp c r
  | _ => .failedConn

/-- The outcome of the per-URL attempt loop. -/
inductive UrlOut where
  | success (attempt : Nat)
  | notFound
  | exhausted
deriving DecidableEq, Repr

/-- Trace and outcome of the inner `for attempt in range(self._retries + 1)`
loop of `open_binary` for one candidate URL. -/
structure UrlStep where
  out : UrlOut
  lastErr : Option LastE
  requests : List (String × Nat)
  sleeps : List ℚ
deriving DecidableEq, Repr

/-- The inner attempt loop of `S3HttpBackend.open_binary` for one candidate
URL: a 404 raises `FileNotFoundError` immediately; connection errors always
retry while attempts remain, HTTP errors retry only for the retryable status
codes, both after a synchronous `time.sleep(backoff * 2 ** attempt)`; any
other HTTP error breaks to the next candidate. `n` is the number of attempts
left and `a` the current attempt index (the loop starts at
`n = retries + 1`, `a = 0`). -/
def obInner (net : Net) (retries : Nat) (backoff : ℚ) (url : String) :
    Nat → Nat → Option LastE → UrlStep
  | 0, _, le => ⟨.exhausted, le, [], []⟩
  | n + 1, a, le =>
    match net url a with
    | .ok _ => ⟨.success a, le, [(url, a)], []⟩
    | .httpErr code reason =>
      if code = 404 then ⟨.notFound, le, [(url, a)], []⟩
      else
        if a < retries && retryableCodes.contains code then
          let res := obInner net retries backoff url n (a + 1)
            (some (.http code reason))
          ⟨res.out, res.lastErr, (url, a) :: res.requests,
            backoff * 2 ^ a :: res.sleeps⟩
        else ⟨.exhausted, some (.http code reason), [(url, a)], []⟩
    | .connErr reason =>
      if a < retries then
        let res := obInner net retries backoff url n (a + 1)
          (some (.conn reason))
        ⟨res.out, res.lastErr, (url, a) :: res.requests,
          backoff * 2 ^ a :: res.sleeps⟩
      else ⟨.exhausted, some (.conn reason), [(url, a)], []⟩

/-- Result and trace of a whole backend operation. -/
structure HttpRun (α : Type) where
  result : Except S3Err α
  requests : List (String × Nat)
  sleeps : List ℚ

/-- The outer `for url in urls:` loop of `S3HttpBackend.open_binary`;
`last_error` persists across candidates. A success returns the `(url,
attempt)` that produced the response. -/
def obOuter (net : Net) (retries : Nat) (backoff : ℚ) :
    List String → Option LastE → HttpRun (String × Nat)
  | [], le => ⟨.error (finalErr le), [], []⟩
  | url :: rest, le =>
    let step := obInner net retries backoff url (retries + 1) 0 le
    match step.out with
    | .success a => ⟨.ok (url, a), step.requests, step.sleeps⟩
    | .notFound => ⟨.error .notFound, step.requests, step.sleeps⟩
    | .exhausted =>
      let r := obOuter net retries backoff rest step.lastErr
      ⟨r.result, step.requests ++ r.requests, step.sleeps ++ r.sleeps⟩

/-- `S3HttpBackend.open_binary(uri)` on the candidate URL list. -/
def open_binary (net : Net) (retries : Nat) (backoff : ℚ)
    (urls : List String) : HttpRun (String × Nat) :=
  obOuter net retries backoff urls none

/-- Result and request trace of `S3HttpBackend.exists`. -/
structure ExistsRun where
  result : Except S3Err Bool
  requests : List (String × Nat)

/-- The `for url in urls:` loop of `S3HttpBackend.exists`: one HEAD request
per candidate — a 404 returns `False` immediately, any other error records
`last_error` and moves to the next candidate; exhaustion raises. -/
def existsGo (net : Net) : List String → Option LastE → ExistsRun
  | [], le => ⟨.error (finalErr le), []⟩
  | url :: rest, le =>
    match net url 0 with
    | .ok status => ⟨.ok (status == 200), [(url, 0)]⟩
    | .httpErr code reason =>
      if code = 404 then ⟨.ok false, [(url, 0)]⟩
      else
        let r := existsGo net rest (some (.http code reason))
        ⟨r.result, (url, 0) :: r.requests⟩
    | .connErr reason =>
      let r := existsGo net rest (some (.conn reason))
      ⟨r.result, (url, 0) :: r.requests⟩

/-- `S3HttpBackend.exists(uri)` on the candidate URL list. -/
def s3_exists (net : Net) (urls : List String) : ExistsRun :=
  existsGo net urls none

/-- Result and request trace of `S3HttpBackend.head_metadata`; on success the
response (abstracted by its status) is turned into metadata, on exhaustion
the ORIGINAL last exception is re-raised (`raise last_error`), and with no
recorded error an empty dict is returned. -/
structure HeadRun where
  result : Except LastE (Option Nat)
  requests : List (String × Nat)

/-- The `for url in urls:` loop of `S3HttpBackend.head_metadata`: one HEAD
request per candidate, no special-casing of any status code. -/
def headGo (net : Net) : List String → Option LastE → HeadRun
  | [], le =>
    match le with
    | some e => ⟨.error e, []⟩
    | none => ⟨.ok none, []⟩
  | url :: rest, le =>
    match net url 0 with
    | .ok status => ⟨.ok (some status), [(url, 0)]⟩
    | .httpErr code reason =>
      let r := headGo net rest (some (.http code reason))
      ⟨r.result, (url, 0) :: r.requests⟩
    | .connErr reason =>
      let r := headGo net rest (some (.conn reason))
      ⟨r.result, (url, 0) :: r.requests⟩

/-- `S3HttpBackend.head_metadata(uri)` on the candidate URL list. -/
def head_metadata (net : Net) (urls : List String) : HeadRun :=
  headGo net urls none

/-- `backends.s3_uri_to_https_urls` for an already parsed bucket and
(percent-quoted) key: the declared candidate order — virtual-hosted style
first, then path style, then the region-qualified variants. -/
def s3_uri_to_https_urls (bucket key : String) : List String :=
  if key ≠ "" then
    ["https://" ++ bucket ++ ".s3.amazonaws.com/" ++ key,
     "https://s3.amazonaws.com/" ++ bucket ++ "/" ++ key,
     "https://" ++ bucket ++ ".s3.us-east-1.amazonaws.com/" ++ key,
     "https://s3.us-east-1.amazonaws.com/" ++ bucket ++ "/" ++ key]
  else
    ["https://" ++ bucket ++ ".s3.amazonaws.com/",
     "https://s3.amazonaws.com/" ++ bucket ++ "/",
     "https://" ++ bucket ++ ".s3.us-east-1.amazonaws.com/",
     "https://s3.us-east-1.amazonaws.com/" ++ bucket ++ "/"]

/-- `n` consecutive attempts at one candidate URL starting at attempt index
`a`: the requests `(url, a), (url, a + 1), ...`. -/
def attemptsFrom (url : String) : Nat → Nat → List (String × Nat)
  | 0, _ => []
  | n + 1, a => (url, a) :: attemptsFrom url n (a + 1)

/-- The backoff sleeps accompanying `n` retried attempts starting at attempt
index `a`: `backoff * 2 ^ a, backoff * 2 ^ (a + 1), ...`. -/
def sleepsFrom (backoff : ℚ) : Nat → Nat → List ℚ
  | 0, _ => []
  | n + 1, a => backoff * 2 ^ a :: sleepsFrom backoff n (a + 1)

/-- One candidate URL attempted `n` times (attempts `0` to `n - 1`). -/
def fullAttempts (url : String) (n : Nat) : List (String × Nat) :=
  attemptsFrom url n 0

/-- The backoff sleeps for `n` retried attempts: `backoff * 2 ^ i` for
`i = 0` to `n - 1`. -/
def fullSleeps (backoff : ℚ) (n : Nat) : List ℚ :=
  sleepsFrom backoff n 0

/-- Every candidate attempted `n` times, in declared order. -/
def gridAttempts (n : Nat) : List String → List (String × Nat)
  | [] => []
  | u :: rest => fullAttempts u n ++ gridAttempts n rest

/-- The sleeps accompanying `gridAttempts` (`n` sleeps per candidate). -/
def gridSleeps (backoff : ℚ) (n : Nat) : List String → List ℚ
  | [] => []
  | _ :: rest => fullSleeps backoff n ++ gridSleeps backoff n rest

theorem obInner_conn (net : Net) (retries : Nat) (backoff : ℚ) (url rfail : String)
    (hnet : ∀ k, net url k = .connErr rfail) :
    ∀ (n a : Nat) (le : Option LastE), a + n = retries →
      obInner net retries backoff url (n + 1) a le =
        ⟨.exhausted, some (.conn rfail), attemptsFrom url (n + 1) a,
          sleepsFrom backoff n a⟩ := by
  intro n
  induction n with
  | zero =>
    intro a le ha
    have hnlt : ¬ a < retries := by omega
    rw [obInner.eq_def]
    dsimp only
    rw [hnet a]
    dsimp only
    rw [if_neg hnlt]
    simp [attemptsFrom, sleepsFrom]
  | succ m ih =>
    intro a le ha
    have hlt : a < retries := by omega
    rw [obInner.eq_def]
    dsimp only
    rw [hnet a]
    dsimp only
    rw [if_pos hlt]
    rw [ih (a + 1) (some (.conn rfail)) (by omega)]
    simp [attemptsFrom, sleepsFrom]

theorem obInner_httpRetry (net : Net) (retries : Nat) (backoff : ℚ)
    (url : String) (code : Nat) (reason : String)
    (hnet : ∀ k, net url k = .httpErr code reason)
    (h404 : code ≠ 404) (hretry : retryableCodes.contains code = true) :
    ∀ (n a : Nat) (le : Option LastE), a + n = retries →
      obInner net retries backoff url (n + 1) a le =
        ⟨.exhausted, some (.http code reason), attemptsFrom url (n + 1) a,
          sleepsFrom backoff n a⟩ := by
  intro n
  induction n with
  | zero =>
    intro a le ha
    have hnlt : ¬ a < retries := by omega
    rw [obInner.eq_def]
    dsimp only
    rw [hnet a]
    dsimp only
    rw [if_neg h404]
    rw [if_neg (by simp [hnlt])]
    simp [attemptsFrom, sleepsFrom]
  | succ m ih =>
    intro a le ha
    have hlt : a < retries := by omega
    rw [obInner.eq_def]
    dsimp only
    rw [hnet a]
    dsimp only
    rw [if_neg h404]
    rw [if_pos (by rw [Bool.and_eq_true]; exact ⟨decide_eq_true hlt, hretry⟩)]
    rw [ih (a + 1) (some (.http code reason)) (by omega)]
    simp [attemptsFrom, sleepsFrom]

theorem obOuter_allHttp (net : Net) (retries : Nat) (backoff : ℚ)
    (code : Nat) (reason : String)
    (h404 : code ≠ 404) (hretry : retryableCodes.contains code = true) :
    ∀ (urls : List String) (u0 : String) (le : Option LastE),
      (∀ u, u ∈ u0 :: urls → ∀ k, net u k = .httpErr code reason) →
      obOuter net retries backoff (u0 :: urls) le =
        ⟨.error (.failedHttp code reason), gridAttempts (retries + 1) (u0 :: urls),
          gridSleeps backoff retries (u0 :: urls)⟩ := by
  intro urls
  induction urls with
  | nil =>
    intro u0 le hnet
    rw [obOuter.eq_def]
    dsimp only
    rw [obInner_httpRetry net retries backoff u0 code reason
      (hnet u0 (by simp)) h404 hretry retries 0 le (by omega)]
    dsimp only
    rw [obOuter.eq_def]
    simp [finalErr, gridAttempts, gridSleeps, fullAttempts, fullSleeps]
  | cons u1 rest ih =>
    intro u0 le hnet
    rw [obOuter.eq_def]
    dsimp only
    rw [obInner_httpRetry net retries backoff u0 code reason
      (hnet u0 (by simp)) h404 hretry retries 0 le (by omega)]
    dsimp only
    rw [ih u1 (some (.http code reason)) (fun u hu k => hnet u (by simp at hu ⊢; tauto) k)]
    simp [gridAttempts, gridSleeps, fullAttempts, fullSleeps]

theorem obOuter_allConn (net : Net) (retries : Nat) (backoff : ℚ) (rfail : String) :
    ∀ (urls : List String) (u0 : String) (le : Option LastE),
      (∀ u, u ∈ u0 :: urls → ∀ k, net u k = .connErr rfail) →
      obOuter net retries backoff (u0 :: urls) le =
        ⟨.error .failedConn, gridAttempts (retries + 1) (u0 :: urls),
          gridSleeps backoff retries (u0 :: urls)⟩ := by
  intro urls
  induction urls with
  | nil =>
    intro u0 le hnet
    rw [obOuter.eq_def]
    dsimp only
    rw [obInner_conn net retries backoff u0 rfail (hnet u0 (by simp)) retries 0 le (by omega)]
    dsimp only
    rw [obOuter.eq_def]
    simp [finalErr, gridAttempts, gridSleeps, fullAttempts, fullSleeps]
  | cons u1 rest ih =>
    intro u0 le hnet
    rw [obOuter.eq_def]
    dsimp only
    rw [obInner_conn net retries backoff u0 rfail (hnet u0 (by simp)) retries 0 le (by omega)]
    dsimp only
    rw [ih u1 (some (.conn rfail)) (fun u hu k => hnet u (by simp at hu ⊢; tauto) k)]
    simp [gridAttempts, gridSleeps, fullAttempts, fullSleeps]

theorem obOuter_lastOk (net : Net) (retries : Nat) (backoff : ℚ) (rfail : String) :
    ∀ (urls : List String) (url2 : String) (le : Option LastE),
      (∀ u, u ∈ urls → ∀ k, net u k = .connErr rfail) →
      net url2 0 = .ok 200 →
      obOuter net retries backoff (urls ++ [url2]) le =
        ⟨.ok (url2, 0), gridAttempts (retries + 1) urls ++ [(url2, 0)],
          gridSleeps backoff retries urls⟩ := by
  intro urls
  induction urls with
  | nil =>
    intro url2 le _ hok
    rw [List.nil_append, obOuter.eq_def]
    dsimp only
    rw [obInner.eq_def]
    dsimp only
    rw [hok]
    dsimp only
    simp [gridAttempts, gridSleeps]
  | cons u1 rest ih =>
    intro url2 le hnet hok
    rw [List.cons_append, obOuter.eq_def]
    dsimp only
    rw [obInner_conn net retries backoff u1 rfail (hnet u1 (by simp)) retries 0 le (by omega)]
    dsimp only
    rw [ih url2 (some (.conn rfail)) (fun u hu k => hnet u (by simp [hu]) k) hok]
    simp [gridAttempts, gridSleeps, fullAttempts, fullSleeps]

theorem obOuter_conn404 (net : Net) (retries : Nat) (backoff : ℚ)
    (rfail reason : String) :
    ∀ (urls : List String) (url2 : String) (rest : List String) (le : Option LastE),
      (∀ u, u ∈ urls → ∀ k, net u k = .connErr rfail) →
      net url2 0 = .httpErr 404 reason →
      obOuter net retries backoff (urls ++ url2 :: rest) le =
        ⟨.error .notFound, gridAttempts (retries + 1) urls ++ [(url2, 0)],
          gridSleeps backoff retries urls⟩ := by
  intro urls
  induction urls with
  | nil =>
    intro url2 rest le _ h404
    rw [List.nil_append, obOuter.eq_def]
    dsimp only
    rw [obInner.eq_def]
    dsimp only
    rw [h404]
    dsimp only
    rw [if_pos rfl]
    simp [gridAttempts, gridSleeps]
  | cons u1 tl ih =>
    intro url2 rest le hnet h404
    rw [List.cons_append, obOuter.eq_def]
    dsimp only
    rw [obInner_conn net retries backoff u1 rfail (hnet u1 (by simp)) retries 0 le (by omega)]
    dsimp only
    rw [ih url2 rest (some (.conn rfail)) (fun u hu k => hnet u (by simp [hu]) k) h404]
    simp [gridAttempts, gridSleeps, fullAttempts, fullSleeps]

theorem existsGo_allHttp (net : Net) (code : Nat) (reason : String) (h404 : code ≠ 404) :
    ∀ (urls : List String) (u0 : String) (le : Option LastE),
      (∀ u, u ∈ u0 :: urls → net u 0 = .httpErr code reason) →
      existsGo net (u0 :: urls) le =
        ⟨.error (.failedHttp code reason), (u0 :: urls).map (fun u => (u, 0))⟩ := by
  intro urls
  induction urls with
  | nil =>
    intro u0 le hnet
    rw [existsGo.eq_def]
    dsimp only
    rw [hnet u0 (by simp)]
    dsimp only
    rw [if_neg h404, existsGo.eq_def]
    simp [finalErr]
  | cons u1 rest ih =>
    intro u0 le hnet
    rw [existsGo.eq_def]
    dsimp only
    rw [hnet u0 (by simp)]
    dsimp only
    rw [if_neg h404]
    rw [ih u1 (some (.http code reason)) (fun u hu => hnet u (by simp at hu ⊢; tauto))]
    simp

theorem existsGo_connOk (net : Net) (rfail : String) :
    ∀ (urls : List String) (url2 : String) (le : Option LastE),
      (∀ u, u ∈ urls → net u 0 = .connErr rfail) →
      net url2 0 = .ok 200 →
      existsGo net (urls ++ [url2]) le =
        ⟨.ok true, urls.map (fun u => (u, 0)) ++ [(url2, 0)]⟩ := by
  intro urls
  induction urls with
  | nil =>
    intro url2 le _ hok
    rw [List.nil_append, existsGo.eq_def]
    dsimp only
    rw [hok]
    simp
  | cons u1 rest ih =>
    intro url2 le hnet hok
    rw [List.cons_append, existsGo.eq_def]
    dsimp only
    rw [hnet u1 (by simp)]
    dsimp only
    rw [ih url2 (some (.conn rfail)) (fun u hu => hnet u (by simp [hu])) hok]
    simp

theorem existsGo_conn404 (net : Net) (rfail reason : String) :
    ∀ (urls : List String) (url2 : String) (rest : List String) (le : Option LastE),
      (∀ u, u ∈ urls → net u 0 = .connErr rfail) →
      net url2 0 = .httpErr 404 reason →
      existsGo net (urls ++ url2 :: rest) le =
        ⟨.ok false, urls.map (fun u => (u, 0)) ++ [(url2, 0)]⟩ := by
  intro urls
  induction urls with
  | nil =>
    intro url2 rest le _ h404
    rw [List.nil_append, existsGo.eq_def]
    dsimp only
    rw [h404]
    dsimp only
    rw [if_pos rfl]
    simp
  | cons u1 tl ih =>
    intro url2 rest le hnet h404
    rw [List.cons_append, existsGo.eq_def]
    dsimp only
    rw [hnet u1 (by simp)]
    dsimp only
    rw [ih url2 rest (some (.conn rfail)) (fun u hu => hnet u (by simp [hu])) h404]
    simp

theorem headGo_allHttp (net : Net) (code : Nat) (reason : String) :
    ∀ (urls : List String) (u0 : String) (le : Option LastE),
      (∀ u, u ∈ u0 :: urls → net u 0 = .httpErr code reason) →
      headGo net (u0 :: urls) le =
        ⟨.error (.http code reason), (u0 :: urls).map (fun u => (u, 0))⟩ := by
  intro urls
  induction urls with
  | nil =>
    intro u0 le hnet
    rw [headGo.eq_def]
    dsimp only
    rw [hnet u0 (by simp)]
    dsimp only
    rw [headGo.eq_def]
    simp
  | cons u1 rest ih =>
    intro u0 le hnet
    rw [headGo.eq_def]
    dsimp only
    rw [hnet u0 (by simp)]
    dsimp only
    rw [ih u1 (some (.http code reason)) (fun u hu => hnet u (by simp at hu ⊢; tauto))]
    simp

theorem takeWhile_ne_colon_s3 (r : List Char) :
    ('s' :: '3' :: ':' :: r).takeWhile (fun c => c != ':') = ['s', '3'] := rfl

theorem splitSchemeL_s3 (r : List Char) :
    splitSchemeL ('s' :: '3' :: ':' :: r) = (['s', '3'], r) := by
  dsimp only [splitSchemeL]
  rw [takeWhile_ne_colon_s3]
  rw [if_neg (by simp)]
  rw [if_neg (by simp)]
  rw [if_pos (by decide)]
  rfl

theorem resolve_uri_s3_fixed (m : List Char) :
    resolve_uri (String.mk ('s' :: '3' :: ':' :: '/' :: '/' :: m)) =
      String.mk ('s' :: '3' :: ':' :: '/' :: '/' :: m) := by
  dsimp only [resolve_uri]
  have htl : (String.mk ('s' :: '3' :: ':' :: '/' :: '/' :: m)).toList
      = 's' :: '3' :: ':' :: '/' :: '/' :: m := rfl
  rw [htl]
  have hfst : (splitUriL ('s' :: '3' :: ':' :: '/' :: '/' :: m)).1 = ['s', '3'] := by
    dsimp only [splitUriL]
    rw [splitSchemeL_s3 ('/' :: '/' :: m)]
    rfl
  rw [hfst]
  rw [if_neg (by decide), if_neg (by decide)]

theorem resolve_uri_of_other (u : String)
    (h1 : (splitUriL u.toList).1 ≠ "registry".toList)
    (h2 : (splitUriL u.toList).1 ≠ "file".toList) :
    resolve_uri u = u := by
  dsimp only [resolve_uri]
  rw [if_neg h1, if_neg h2]

theorem resolve_uri_of_registry (u : String)
    (h : (splitUriL u.toList).1 = "registry".toList) :
    resolve_uri u = String.mk ("s3://".toList ++ (splitUriL u.toList).2.1
      ++ (splitUriL u.toList).2.2) := by
  dsimp only [resolve_uri]
  rw [if_pos h]

/-! ### Helper lemmas shared by the `open_text` claims -/

theorem gzipHeader_none_magic (bytes : List Nat) (h : gzipHeaderErr bytes = none) :
    bytes.take 2 = gzipMagic := by
  by_contra hne
  unfold gzipHeaderErr at h
  by_cases hlen : bytes.length < 10
  · simp [hlen] at h
  · simp [hlen, hne] at h

theorem open_text_readAll_noFail (inflate : List Nat → Except Err (List Nat))
    (decode : List Nat → List Char) (bytes : List Nat) (retries : Nat)
    (d : List Char) (hs : open_text_stream inflate decode bytes = ⟨d, none⟩) :
    open_text_readAll inflate decode (some bytes) retries (d.length + 1) = .ok d := by
  unfold open_text_readAll
  by_cases h0 : retries = 0
  · rw [if_pos h0]
    dsimp only [localOpener]
    rw [hs]
    exact iterStream_noFail _ _ (by omega)
  · rw [if_neg h0]
    unfold openAndReadAll retryingInit localOpener
    try dsimp only
    rw [hs]
    try dsimp only
    rw [iterAll_noFail (d.length + 1) d _ 1 0 retries 0 (by omega)]

theorem open_text_readAll_immediateFail (inflate : List Nat → Except Err (List Nat))
    (decode : List Nat → List Char) (bytes : List Nat) (retries : Nat) (e : Err)
    (hre : retryable e = true)
    (hs : open_text_stream inflate decode bytes = ⟨[], some e⟩) :
    open_text_readAll inflate decode (some bytes) retries 2 = .error e := by
  unfold open_text_readAll
  by_cases h0 : retries = 0
  · rw [if_pos h0]
    dsimp only [localOpener]
    rw [hs]
    simp [iterStream, mreadline]
  · rw [if_neg h0]
    unfold openAndReadAll retryingInit localOpener
    try dsimp only
    rw [hs]
    try dsimp only
    rcases Nat.exists_eq_succ_of_ne_zero h0 with ⟨r, hr⟩
    subst hr
    rw [iterAll_allFail 2 [] [] 0 (r + 1) _ e hre ?hop (by simp) (by simp)]
    case hop =>
      intro j
      rfl

/-! ### The claims -/

/-- C1: for a factory whose first stream fails with a retryable error after
delivering the first `N` characters of the content and whose second stream
carries the full content, reading everything through the retry wrapper with
budget at least 1 yields exactly the complete content, each character once
and in order, with exactly one re-open and one close of the broken stream;
and when the fresh stream is too short to replay the already delivered
characters, the hard resynchronization failure is raised. -/
theorem claim_C1_resumable_stream (e : Err) (hre : retryable e = true) (b : Nat) :
    (∀ (u : List Char) (N : Nat), N ≤ u.length →
      openAndReadAll
        (fun j => if j = 0 then .ok ⟨u.take N, some e⟩ else .ok ⟨u, none⟩)
        (b + 1) (u.length + 3) =
        (.ok u, some ⟨2, 1, b, u.length, ⟨[], none⟩⟩))
    ∧ (∀ (t v : List Char), v.length < t.length →
      openAndReadAll
        (fun j => if j = 0 then .ok ⟨t, some e⟩ else .ok ⟨v, none⟩)
        (b + 1) (t.length + 3) =
        (.error .resync, some ⟨2, 1, b, t.length, ⟨[], none⟩⟩)) := by
  constructor
  · intro u N hN
    have hlen : (u.take N).length = N := by
      rw [List.length_take]
      exact Nat.min_eq_left hN
    unfold openAndReadAll retryingInit
    dsimp only
    rw [if_pos rfl]
    dsimp only
    rw [iterAll_resume (u.length + 3) (u.take N) u 0 b _ e hre rfl
      (by omega) (by omega)]
    dsimp only
    have h2 : 0 + (u.take N).length = N := by omega
    rw [h2, List.take_append_drop]
  · intro t v hvt
    unfold openAndReadAll retryingInit
    dsimp only
    rw [if_pos rfl]
    dsimp only
    rw [iterAll_resync (t.length + 3) t v 0 b _ e hre rfl (by omega) (by omega)]
    dsimp only
    rw [Nat.zero_add]

/-- Witness for C1 at a concrete content and failure offset. -/
theorem claim_C1_witness :
    retryable Err.eofErr = true ∧ 3 ≤ (['a', 'b', '\n', 'c'] : List Char).length ∧
    (['x'] : List Char).length < (['x', 'y'] : List Char).length ∧
    openAndReadAll
      (fun j => if j = 0 then .ok ⟨(['a', 'b', '\n', 'c'] : List Char).take 3, some .eofErr⟩
        else .ok ⟨['a', 'b', '\n', 'c'], none⟩) 1 7 =
      (.ok ['a', 'b', '\n', 'c'], some ⟨2, 1, 0, 4, ⟨[], none⟩⟩) ∧
    openAndReadAll
      (fun j => if j = 0 then .ok ⟨['x', 'y'], some .eofErr⟩ else .ok ⟨['x'], none⟩) 1 5 =
      (.error .resync, some ⟨2, 1, 0, 2, ⟨[], none⟩⟩) := by
  refine ⟨rfl, by decide, by decide, ?_, ?_⟩
  · exact (claim_C1_resumable_stream .eofErr rfl 0).1 ['a', 'b', '\n', 'c'] 3 (by decide)
  · exact (claim_C1_resumable_stream .eofErr rfl 0).2 ['x', 'y'] ['x'] (by decide)

/-- C2: for an existing local plain-text (non-gzip) file, `open_text` yields
exactly the file content decoded with the requested encoding — no characters
added, dropped or reordered — both on the unwrapped (`retries = 0`) path and
through the retry wrapper. -/
theorem claim_C2_local_plain_text (inflate : List Nat → Except Err (List Nat))
    (decode : List Nat → List Char) (bytes : List Nat) (retries : Nat)
    (hmagic : bytes.take 2 ≠ gzipMagic) :
    open_text_readAll inflate decode (some bytes) retries
      ((decode bytes).length + 1) = .ok (decode bytes) := by
  refine open_text_readAll_noFail inflate decode bytes retries (decode bytes) ?_
  unfold open_text_stream
  rw [if_neg hmagic]

/-- Witness for C2 at a concrete two-byte file. -/
theorem claim_C2_witness :
    (([104, 105] : List Nat).take 2 ≠ gzipMagic) ∧
    open_text_readAll (fun _ => .error .badGzip) (fun bs => bs.map Char.ofNat)
      (some [104, 105]) 3 3 = .ok ['h', 'i'] := by
  refine ⟨by decide, ?_⟩
  exact claim_C2_local_plain_text (fun _ => .error .badGzip)
    (fun bs => bs.map Char.ofNat) [104, 105] 3 (by decide)

/-- C4: when every factory invocation yields a stream failing with the same
retryable error, reading through the wrapper performs exactly `budget`
re-opens (`opens` goes from 1 to `1 + budget`) and then re-raises the
original error unchanged; with budget 0 the first error propagates with no
re-open. -/
theorem claim_C4_retry_exhaustion (t : List Char) (b : Nat) (e : Err)
    (hre : retryable e = true) :
    openAndReadAll (fun _ => .ok ⟨t, some e⟩) b (t.length + 2) =
      (.error e, some ⟨1 + b, b, 0, t.length, ⟨[], some e⟩⟩) := by
  unfold openAndReadAll retryingInit
  dsimp only
  rw [iterAll_allFail (t.length + 2) t t 0 b _ e hre (fun j => rfl)
    (by omega) (by omega)]

/-- Witness for C4 at a concrete stream and budget 2, plus the budget-0 case. -/
theorem claim_C4_witness :
    retryable Err.osErr = true ∧
    openAndReadAll (fun _ => .ok ⟨['x'], some .osErr⟩) 2 3 =
      (.error .osErr, some ⟨3, 2, 0, 1, ⟨[], some .osErr⟩⟩) ∧
    openAndReadAll (fun _ => .ok ⟨['x'], some .osErr⟩) 0 3 =
      (.error .osErr, some ⟨1, 0, 0, 1, ⟨[], some .osErr⟩⟩) := by
  refine ⟨rfl, ?_, ?_⟩
  · exact claim_C4_retry_exhaustion ['x'] 2 .osErr rfl
  · exact claim_C4_retry_exhaustion ['x'] 0 .osErr rfl

/-- C9: a valid gzip member (well-formed header, inflatable payload) is
transparently decompressed and decoded; and on the crafted two-byte magic
collision with a non-deflate method byte the decoder fails loudly with
`BadGzipFile` — the content is never silently mis-decoded, on the plain path
and through the default retry wrapper alike. -/
theorem claim_C9_gzip_detection :
    (∀ (inflate : List Nat → Except Err (List Nat)) (decode : List Nat → List Char)
      (bytes payload : List Nat) (retries : Nat),
      gzipHeaderErr bytes = none → inflate bytes = .ok payload →
      open_text_readAll inflate decode (some bytes) retries
        ((decode payload).length + 1) = .ok (decode payload))
    ∧ gzipHeaderErr craftedCollision = some .badGzip
    ∧ (∀ (inflate : List Nat → Except Err (List Nat)) (decode : List Nat → List Char),
      open_text_stream inflate decode craftedCollision = ⟨[], some .badGzip⟩)
    ∧ (∀ (inflate : List Nat → Except Err (List Nat)) (decode : List Nat → List Char)
        (retries : Nat),
      open_text_readAll inflate decode (some craftedCollision) retries 2 =
        .error .badGzip) := by
  refine ⟨?_, rfl, fun _ _ => rfl, ?_⟩
  · intro inflate decode bytes payload retries hhdr hinf
    refine open_text_readAll_noFail inflate decode bytes retries (decode payload) ?_
    unfold open_text_stream gzipRead
    rw [if_pos (gzipHeader_none_magic bytes hhdr), hhdr]
    dsimp only
    rw [hinf]
  · intro inflate decode retries
    exact open_text_readAll_immediateFail inflate decode craftedCollision retries
      .badGzip rfl rfl

/-- Witness for C9 at a concrete valid gzip header and payload. -/
theorem claim_C9_witness :
    gzipHeaderErr [31, 139, 8, 0, 0, 0, 0, 0, 0, 0] = none ∧
    open_text_readAll
      (fun bs => if bs = [31, 139, 8, 0, 0, 0, 0, 0, 0, 0] then .ok [104]
        else .error .badGzip)
      (fun bs => bs.map Char.ofNat)
      (some [31, 139, 8, 0, 0, 0, 0, 0, 0, 0]) 3 2 = .ok ['h'] := by
  refine ⟨by decide, ?_⟩
  exact claim_C9_gzip_detection.1
    (fun bs => if bs = [31, 139, 8, 0, 0, 0, 0, 0, 0, 0] then .ok [104]
      else .error .badGzip)
    (fun bs => bs.map Char.ofNat) [31, 139, 8, 0, 0, 0, 0, 0, 0, 0] [104] 3
    (by decide) rfl

/-- C10: the retry wrapper invokes its factory eagerly at construction, so a
failure to open the source at all propagates immediately — for every retry
budget, with the budget left untouched on success — and a missing local file
surfaces `FileNotFoundError` from `open_text` on both the wrapped and the
unwrapped path. -/
theorem claim_C10_eager_open :
    (∀ (opener : Opener) (retries : Nat) (e : Err),
      opener 0 = .error e → retryingInit opener retries = .error e)
    ∧ (∀ (opener : Opener) (retries : Nat) (s : MStream),
      opener 0 = .ok s → retryingInit opener retries = .ok ⟨1, 0, retries, 0, s⟩)
    ∧ (∀ (inflate : List Nat → Except Err (List Nat)) (decode : List Nat → List Char)
        (retries fuel : Nat),
      open_text_readAll inflate decode none retries fuel = .error .notFound) := by
  refine ⟨?_, ?_, ?_⟩
  · intro opener retries e h
    unfold retryingInit
    rw [h]
  · intro opener retries s h
    unfold retryingInit
    rw [h]
  · intro inflate decode retries fuel
    unfold open_text_readAll
    by_cases h0 : retries = 0
    · rw [if_pos h0]
      rfl
    · rw [if_neg h0]
      rfl

/-- Witness for C10 at a concrete failing factory. -/
theorem claim_C10_witness :
    (fun _ => (.error .notFound : Except Err MStream)) 0 = .error .notFound ∧
    retryingInit (fun _ => .error .notFound) 5 = .error .notFound := by
  refine ⟨rfl, ?_⟩
  exact claim_C10_eager_open.1 (fun _ => .error .notFound) 5 .notFound rfl

/-- C3: evaluation of the eviction bug at a concrete input. With
`max_total_bytes = 100`, an existing entry `a` of size 60 (last access 1)
and a `put` of `b` with size 60 (last access 2), the source deletes every
entry — the index comes back empty and in particular the just-inserted,
most recently accessed `b` is gone — because `_evict_if_needed` recomputes
the total from an in-memory dict that `_delete_entry` never mutates. The
claim (and spec section 4.4) instead require only the least recently used
`a` to be evicted and `b` to remain. -/
theorem claim_C3_eviction_overreach :
    cachePut 100 [("a", ⟨60, 1⟩)] "b" 60 2 = [] ∧
    lookupKey (cachePut 100 [("a", ⟨60, 1⟩)] "b" 60 2) "b" = none := by
  exact ⟨rfl, rfl⟩

/-- C5 counterexample: URI resolution is not idempotent. For the input
`file:file:///x` the first resolution yields `file:///x` (the parsed path),
which itself parses with scheme `file`, so a second resolution yields `/x`. -/
theorem claim_C5_counterexample :
    resolve_uri (resolve_uri "file:file:///x") ≠ resolve_uri "file:file:///x" := by
  have h1 : resolve_uri "file:file:///x" = "file:///x" := rfl
  have h2 : resolve_uri "file:///x" = "/x" := rfl
  rw [h1, h2]
  decide

/-- C5 amended: resolution is idempotent on every URI whose scheme is not
`file` — a `registry` URI rewrites to an `s3://` URI, which resolves to
itself, and URIs of any other scheme are returned unchanged; only `file`
URIs whose parsed path itself carries a scheme can resolve differently
twice. -/
theorem claim_C5_idempotent_unless_file (u : String)
    (hf : (splitUriL u.toList).1 ≠ "file".toList) :
    resolve_uri (resolve_uri u) = resolve_uri u := by
  by_cases hr : (splitUriL u.toList).1 = "registry".toList
  · rw [resolve_uri_of_registry u hr]
    have hs3 : "s3://".toList = ['s', '3', ':', '/', '/'] := rfl
    have hshape : ("s3://".toList ++ (splitUriL u.toList).2.1 ++ (splitUriL u.toList).2.2)
        = 's' :: '3' :: ':' :: '/' :: '/' ::
          ((splitUriL u.toList).2.1 ++ (splitUriL u.toList).2.2) := by
      rw [hs3]
      simp
    rw [hshape]
    exact resolve_uri_s3_fixed _
  · rw [resolve_uri_of_other u hr hf]
    exact resolve_uri_of_other u hr hf

/-- Witness for the amended C5 at a concrete registry URI. -/
theorem claim_C5_witness :
    ((splitUriL "registry://b/k".toList).1 ≠ "file".toList) ∧
    resolve_uri (resolve_uri "registry://b/k") = resolve_uri "registry://b/k" := by
  refine ⟨by decide, ?_⟩
  exact claim_C5_idempotent_unless_file "registry://b/k" (by decide)

/-- A network where the first request to any URL fails with a connection
error and every later request succeeds — retryable by the backend policy. -/
def flakyNet : Net := fun _ k => if k = 0 then .connErr "refused" else .ok 200

/-- C6 counterexample: `exists` does not retry a candidate URL at all. On a
network where every URL fails once with a connection error and then
succeeds, `exists` issues exactly one request per candidate and raises,
while `open_binary` on the same network retries (with one backoff sleep) and
succeeds — so the claim that all three operations retry each candidate up
to `retries + 1` times with backoff is false for `exists` (and likewise
`head_metadata`). -/
theorem claim_C6_counterexample :
    (s3_exists flakyNet ["u1", "u2"]).result = .error .failedConn ∧
    (s3_exists flakyNet ["u1", "u2"]).requests = [("u1", 0), ("u2", 0)] ∧
    (head_metadata flakyNet ["u1", "u2"]).result = .error (.conn "refused") ∧
    (head_metadata flakyNet ["u1", "u2"]).requests = [("u1", 0), ("u2", 0)] ∧
    (open_binary flakyNet 2 1 ["u1", "u2"]).result = .ok ("u1", 1) ∧
    (open_binary flakyNet 2 1 ["u1", "u2"]).sleeps = [1] := by
  refine ⟨rfl, rfl, rfl, rfl, rfl, ?_⟩
  show [(1 : ℚ) * 2 ^ 0] = [1]
  norm_num

/-- C6 amended: `open_binary` tries the candidate URLs in declared order and
retries each up to `retries + 1` times with synchronous
`backoff * 2 ^ attempt` sleeps on retryable conditions, and exhaustion
raises a failure carrying the last observed status and reason; success on
only the last candidate still succeeds, for `exists` as well; but `exists`
and `head_metadata` issue exactly one request per candidate — their
resilience is candidate fallback only, with no per-candidate retry or
backoff (`head_metadata` re-raises the last original exception). -/
theorem claim_C6_candidate_retry_behaviour (retries : Nat) (backoff : ℚ)
    (reason rfail : String) (net : Net) :
    (∀ (u0 : String) (urls : List String),
      (∀ u, u ∈ u0 :: urls → ∀ k, net u k = .httpErr 503 reason) →
      open_binary net retries backoff (u0 :: urls) =
        ⟨.error (.failedHttp 503 reason), gridAttempts (retries + 1) (u0 :: urls),
          gridSleeps backoff retries (u0 :: urls)⟩)
    ∧ (∀ (urls : List String) (url2 : String),
      (∀ u, u ∈ urls → ∀ k, net u k = .connErr rfail) →
      net url2 0 = .ok 200 →
      open_binary net retries backoff (urls ++ [url2]) =
        ⟨.ok (url2, 0), gridAttempts (retries + 1) urls ++ [(url2, 0)],
          gridSleeps backoff retries urls⟩ ∧
      s3_exists net (urls ++ [url2]) =
        ⟨.ok true, urls.map (fun u => (u, 0)) ++ [(url2, 0)]⟩)
    ∧ (∀ (u0 : String) (urls : List String),
      (∀ u, u ∈ u0 :: urls → net u 0 = .httpErr 503 reason) →
      s3_exists net (u0 :: urls) =
        ⟨.error (.failedHttp 503 reason), (u0 :: urls).map (fun u => (u, 0))⟩ ∧
      head_metadata net (u0 :: urls) =
        ⟨.error (.http 503 reason), (u0 :: urls).map (fun u => (u, 0))⟩) := by
  refine ⟨?_, ?_, ?_⟩
  · intro u0 urls hnet
    exact obOuter_allHttp net retries backoff 503 reason (by decide) (by decide)
      urls u0 none hnet
  · intro urls url2 hnet hok
    exact ⟨obOuter_lastOk net retries backoff rfail urls url2 none hnet hok,
      existsGo_connOk net rfail urls url2 none (fun u hu => hnet u hu 0) hok⟩
  · intro u0 urls hnet
    exact ⟨existsGo_allHttp net 503 reason (by decide) urls u0 none hnet,
      headGo_allHttp net 503 reason urls u0 none hnet⟩

/-- A network that always answers HTTP 503. -/
def net503 : Net := fun _ _ => .httpErr 503 "unavailable"

/-- Witness for the amended C6 at two candidates, one retry, backoff 1. -/
theorem claim_C6_witness :
    open_binary net503 1 1 ["u1", "u2"] =
      ⟨.error (.failedHttp 503 "unavailable"), gridAttempts 2 ["u1", "u2"],
        gridSleeps 1 1 ["u1", "u2"]⟩ := by
  exact (claim_C6_candidate_retry_behaviour 1 1 "unavailable" "x" net503).1
    "u1" ["u2"] (fun u _ k => rfl)

/-- C7 counterexample: revalidation does not fire on every disagreement.
With a cached entry recording `content_length = 0` and fresh remote
metadata reporting `content_length = 5`, the two disagree and metadata is
available, yet `_cache_entry_valid` returns `True` (Python treats the
recorded `0` as falsy and skips the comparison) and the stale entry is
served as-is instead of being deleted and re-downloaded. -/
theorem claim_C7_counterexample :
    cache_entry_valid ⟨none, none, some 5⟩ ⟨none, none, some 0⟩ = true ∧
    metaIsEmpty ⟨none, none, some 5⟩ = false ∧
    ((⟨none, none, some 0⟩ : ObjMeta).contentLength ≠
      (⟨none, none, some 5⟩ : ObjMeta).contentLength) ∧
    open_text_cached_action (some ⟨none, none, some 0⟩) false ⟨none, none, some 5⟩ =
      .serveCached := by
  exact ⟨rfl, rfl, by decide, rfl⟩

/-- C7 amended: revalidation fails open — when the backend supplies no
metadata the cached entry is trusted and served as-is — and the entry is
treated as stale, deleted and re-downloaded whenever one of etag,
last-modified or content-length carries a truthy value (non-empty string,
non-zero length) on both sides and the two values disagree; comparisons
where either side is absent, empty or zero are skipped. -/
theorem claim_C7_revalidation (entry meta : ObjMeta) :
    (metaIsEmpty meta = true →
      cache_entry_valid meta entry = true ∧
      open_text_cached_action (some entry) false meta = .serveCached)
    ∧ ((truthyS entry.etag = true ∧ truthyS meta.etag = true ∧
          entry.etag ≠ meta.etag) ∨
       (truthyS entry.lastModified = true ∧ truthyS meta.lastModified = true ∧
          entry.lastModified ≠ meta.lastModified) ∨
       (truthyN entry.contentLength = true ∧ truthyN meta.contentLength = true ∧
          entry.contentLength ≠ meta.contentLength) →
      cache_entry_valid meta entry = false ∧
      open_text_cached_action (some entry) false meta = .deleteThenRedownload) := by
  constructor
  · intro hme
    have hv : cache_entry_valid meta entry = true := by
      unfold cache_entry_valid
      rw [if_pos hme]
    refine ⟨hv, ?_⟩
    simp [open_text_cached_action, hv]
  · intro hdis
    have hme : metaIsEmpty meta = false := by
      rcases hdis with ⟨_, h2, _⟩ | ⟨_, h2, _⟩ | ⟨_, h2, _⟩
      · cases hm : meta.etag with
        | none => rw [hm] at h2; simp [truthyS] at h2
        | some sv => simp [metaIsEmpty, hm]
      · cases hm : meta.lastModified with
        | none => rw [hm] at h2; simp [truthyS] at h2
        | some sv => simp [metaIsEmpty, hm]
      · cases hm : meta.contentLength with
        | none => rw [hm] at h2; simp [truthyN] at h2
        | some nv => simp [metaIsEmpty, hm]
    have hv : cache_entry_valid meta entry = false := by
      unfold cache_entry_valid
      rw [if_neg (by simp [hme])]
      rcases hdis with ⟨h1, h2, h3⟩ | ⟨h1, h2, h3⟩ | ⟨h1, h2, h3⟩
      · rw [if_pos (by rw [h1, h2]; simpa [bne_iff_ne] using h3)]
      · by_cases hc1 : (truthyS entry.etag && truthyS meta.etag &&
            (entry.etag != meta.etag)) = true
        · rw [if_pos hc1]
        · rw [if_neg hc1]
          rw [if_pos (by rw [h1, h2]; simpa [bne_iff_ne] using h3)]
      · by_cases hc1 : (truthyS entry.etag && truthyS meta.etag &&
            (entry.etag != meta.etag)) = true
        · rw [if_pos hc1]
        · rw [if_neg hc1]
          by_cases hc2 : (truthyS entry.lastModified && truthyS meta.lastModified &&
              (entry.lastModified != meta.lastModified)) = true
          · rw [if_pos hc2]
          · rw [if_neg hc2]
            rw [if_pos (by rw [h1, h2]; simpa [bne_iff_ne] using h3)]
    refine ⟨hv, ?_⟩
    simp [open_text_cached_action, hv]

/-- Witness for the amended C7: a disagreeing etag forces delete and
re-download, and empty metadata is trusted. -/
theorem claim_C7_witness :
    (cache_entry_valid ⟨some "e2", none, none⟩ ⟨some "e1", none, none⟩ = false ∧
      open_text_cached_action (some ⟨some "e1", none, none⟩) false
        ⟨some "e2", none, none⟩ = .deleteThenRedownload) ∧
    (cache_entry_valid ⟨none, none, none⟩ ⟨some "e1", none, none⟩ = true ∧
      open_text_cached_action (some ⟨some "e1", none, none⟩) false
        ⟨none, none, none⟩ = .serveCached) := by
  constructor
  · exact (claim_C7_revalidation ⟨some "e1", none, none⟩ ⟨some "e2", none, none⟩).2
      (Or.inl ⟨rfl, rfl, by decide⟩)
  · exact (claim_C7_revalidation ⟨some "e1", none, none⟩ ⟨none, none, none⟩).1 rfl

/-- C8: a 404 from any candidate URL short-circuits immediately — after any
number of earlier candidates failed with connection errors, the 404
candidate is issued exactly one request, no retries of it and none of the
remaining candidates are attempted; `open_binary` raises the not-found
error and `exists` returns false. -/
theorem claim_C8_404_short_circuit (retries : Nat) (backoff : ℚ)
    (rfail reason : String) (net : Net) (urls : List String) (url2 : String)
    (rest : List String)
    (hpre : ∀ u, u ∈ urls → ∀ k, net u k = .connErr rfail)
    (h404 : net url2 0 = .httpErr 404 reason) :
    open_binary net retries backoff (urls ++ url2 :: rest) =
      ⟨.error .notFound, gridAttempts (retries + 1) urls ++ [(url2, 0)],
        gridSleeps backoff retries urls⟩ ∧
    s3_exists net (urls ++ url2 :: rest) =
      ⟨.ok false, urls.map (fun u => (u, 0)) ++ [(url2, 0)]⟩ := by
  exact ⟨obOuter_conn404 net retries backoff rfail reason urls url2 rest none hpre h404,
    existsGo_conn404 net rfail reason urls url2 rest none (fun u hu => hpre u hu 0) h404⟩

/-- A network that always answers HTTP 404. -/
def net404 : Net := fun _ _ => .httpErr 404 "Not Found"

/-- Witness for C8: a 404 on the first of four candidates stops everything. -/
theorem claim_C8_witness :
    open_binary net404 2 1 ["c1", "c2", "c3", "c4"] =
      ⟨.error .notFound, [("c1", 0)], []⟩ ∧
    s3_exists net404 ["c1", "c2", "c3", "c4"] = ⟨.ok false, [("c1", 0)]⟩ := by
  exact claim_C8_404_short_circuit 2 1 "x" "Not Found" net404 [] "c1"
    ["c2", "c3", "c4"] (fun u hu => absurd hu (by simp)) rfl

end DigOpenData
